import Mathlib

/-!
Verification of the yagbc Game Boy emulator core: a shallow embedding of
the Sharp SM83 register file, flag logic, opcode dispatch and the basic
address space, with theorems checking the specification's claims.

Machine integers are modelled as `Nat` with explicit `% 2^w` at the points
where the Go code performs a width-truncating conversion or a
width-limited arithmetic operation.
-/

/-- The SM83 register set: eight 8-bit registers and two 16-bit registers
(registers.go, `Registers`). Each 8-bit field holds a value `< 256`
in any state reachable by the emulator; that bound appears as a
hypothesis where a theorem needs it. -/
structure Registers where
  A : Nat
  F : Nat
  B : Nat
  C : Nat
  D : Nat
  E : Nat
  H : Nat
  L : Nat
  SP : Nat
  PC : Nat
deriving Repr, DecidableEq

/-- Zero flag bit (bit 7 of F). -/
def FlagZ : Nat := 0b10000000
/-- Subtract flag bit (bit 6 of F). -/
def FlagN : Nat := 0b01000000
/-- Half-carry flag bit (bit 5 of F). -/
def FlagH : Nat := 0b00100000
/-- Carry flag bit (bit 4 of F). -/
def FlagC : Nat := 0b00010000

/-- Power-on register state (registers.go, `NewRegisters`). -/
def NewRegisters : Registers :=
  { A := 0x00, F := 0x00, B := 0x00, C := 0x00
    D := 0x00, E := 0x00, H := 0x00, L := 0x00
    SP := 0xFFFE, PC := 0x0000 }

/-- `AF()`: A in the high byte, F in the low byte. -/
def Registers.AF (r : Registers) : Nat := r.A <<< 8 ||| r.F

/-- `BC()`: B in the high byte, C in the low byte. -/
def Registers.BC (r : Registers) : Nat := r.B <<< 8 ||| r.C

/-- `DE()`: D in the high byte, E in the low byte. -/
def Registers.DE (r : Registers) : Nat := r.D <<< 8 ||| r.E

/-- `HL()`: H in the high byte, L in the low byte. -/
def Registers.HL (r : Registers) : Nat := r.H <<< 8 ||| r.L

/-- `SetAF(value)`: high byte to A, low byte to F with the low nibble of F
masked to zero (`uint8(value) & 0xF0`). -/
def Registers.SetAF (r : Registers) (value : Nat) : Registers :=
  { r with A := (value >>> 8) % 256, F := (value % 256) &&& 0xF0 }

/-- `SetBC(value)`: high byte to B, low byte to C. -/
def Registers.SetBC (r : Registers) (value : Nat) : Registers :=
  { r with B := (value >>> 8) % 256, C := value % 256 }

/-- `SetDE(value)`: high byte to D, low byte to E. -/
def Registers.SetDE (r : Registers) (value : Nat) : Registers :=
  { r with D := (value >>> 8) % 256, E := value % 256 }

/-- `SetHL(value)`: high byte to H, low byte to L. -/
def Registers.SetHL (r : Registers) (value : Nat) : Registers :=
  { r with H := (value >>> 8) % 256, L := value % 256 }

/-- `GetFlag(flag)`: true when the flag bit is set in F. -/
def Registers.GetFlag (r : Registers) (flag : Nat) : Bool :=
  (r.F &&& flag) != 0

/-- `GetFlagZ()`. -/
def Registers.GetFlagZ (r : Registers) : Bool := r.GetFlag FlagZ
/-- `GetFlagN()`. -/
def Registers.GetFlagN (r : Registers) : Bool := r.GetFlag FlagN
/-- `GetFlagH()`. -/
def Registers.GetFlagH (r : Registers) : Bool := r.GetFlag FlagH
/-- `GetFlagC()`. -/
def Registers.GetFlagC (r : Registers) : Bool := r.GetFlag FlagC

/-- `SetFlag(flag, value)`: OR the bit in when `value` is true, else AND
with the complement (Go `F &^= flag`, i.e. `F &&& (flag ^^^ 0xFF)` on
8-bit operands). -/
def Registers.SetFlag (r : Registers) (flag : Nat) (value : Bool) : Registers :=
  if value then { r with F := r.F ||| flag }
  else { r with F := r.F &&& (flag ^^^ 0xFF) }

/-- `SetFlagZ(value)`. -/
def Registers.SetFlagZ (r : Registers) (value : Bool) : Registers := r.SetFlag FlagZ value
/-- `SetFlagN(value)`. -/
def Registers.SetFlagN (r : Registers) (value : Bool) : Registers := r.SetFlag FlagN value
/-- `SetFlagH(value)`. -/
def Registers.SetFlagH (r : Registers) (value : Bool) : Registers := r.SetFlag FlagH value
/-- `SetFlagC(value)`. -/
def Registers.SetFlagC (r : Registers) (value : Bool) : Registers := r.SetFlag FlagC value

/-- `SetFlags(z, n, h, c)`: clear F, then OR in each requested flag bit. -/
def Registers.SetFlags (r : Registers) (z n h c : Bool) : Registers :=
  let f0 : Nat := 0
  let f1 := if z then f0 ||| FlagZ else f0
  let f2 := if n then f1 ||| FlagN else f1
  let f3 := if h then f2 ||| FlagH else f2
  let f4 := if c then f3 ||| FlagC else f3
  { r with F := f4 }

/-- The basic address space (part_002, `BasicMemory`): 32 KiB ROM,
8 KiB WRAM and 127 bytes of HRAM, each modelled as a total function
from array index to stored byte. -/
structure BasicMemory where
  rom : Nat → Nat
  wram : Nat → Nat
  hram : Nat → Nat

/-- `NewBasicMemory()`: all bytes start at 0x00 (Go zero-initialises). -/
def NewBasicMemory : BasicMemory :=
  { rom := fun _ => 0, wram := fun _ => 0, hram := fun _ => 0 }

/-- `Read(addr)`: region decode per part_002. ROM at `addr <= 0x7FFF`,
WRAM at `0xC000..0xDFFF`, echo of WRAM at `0xE000..0xFDFF`, HRAM at
`0xFF80..0xFFFE`, 0xFF for everything else. -/
def BasicMemory.Read (m : BasicMemory) (addr : Nat) : Nat :=
  if addr ≤ 0x7FFF then m.rom addr
  else if 0xC000 ≤ addr ∧ addr ≤ 0xDFFF then m.wram (addr - 0xC000)
  else if 0xE000 ≤ addr ∧ addr ≤ 0xFDFF then m.wram (addr - 0xE000)
  else if 0xFF80 ≤ addr ∧ addr ≤ 0xFFFE then m.hram (addr - 0xFF80)
  else 0xFF

/-- `Write(addr, val)`: same region decode as `Read`; writes to the echo
region land in WRAM; writes anywhere else are discarded. -/
def BasicMemory.Write (m : BasicMemory) (addr val : Nat) : BasicMemory :=
  if addr ≤ 0x7FFF then
    { m with rom := fun i => if i = addr then val else m.rom i }
  else if 0xC000 ≤ addr ∧ addr ≤ 0xDFFF then
    { m with wram := fun i => if i = addr - 0xC000 then val else m.wram i }
  else if 0xE000 ≤ addr ∧ addr ≤ 0xFDFF then
    { m with wram := fun i => if i = addr - 0xE000 then val else m.wram i }
  else if 0xFF80 ≤ addr ∧ addr ≤ 0xFFFE then
    { m with hram := fun i => if i = addr - 0xFF80 then val else m.hram i }
  else m

/-- `LoadROM(data)`: reject inputs longer than the 32768-byte ROM,
otherwise copy `data` over the start of ROM (Go `copy(m.rom[:], data)`
writes exactly `data.length` bytes). -/
def BasicMemory.LoadROM (m : BasicMemory) (data : List Nat) : Except String BasicMemory :=
  if data.length > 0x8000 then
    Except.error ("ROM data too large: " ++ toString data.length ++ " bytes (max 32768)")
  else
    Except.ok { m with rom := fun i => if i < data.length then data.getD i 0 else m.rom i }

/-- The CPU (registers.go, `CPU`): register file, memory, halt flag and
the running cycle counter (a Go `uint64`). -/
structure CPU where
  regs : Registers
  mem : BasicMemory
  Halted : Bool
  TotalCycles : Nat

/-- `NewCPU(mem)`. -/
def NewCPU (mem : BasicMemory) : CPU :=
  { regs := NewRegisters, mem := mem, Halted := false, TotalCycles := 0 }

/-- `fetchByte()`: read the byte at PC and increment PC (16-bit wrap). -/
def CPU.fetchByte (cpu : CPU) : Nat × CPU :=
  let value := cpu.mem.Read cpu.regs.PC
  (value, { cpu with regs := { cpu.regs with PC := (cpu.regs.PC + 1) % 65536 } })

/-- `fetchWord()`: low byte first, then high byte (little-endian). -/
def CPU.fetchWord (cpu : CPU) : Nat × CPU :=
  let fl := cpu.fetchByte
  let fh := fl.2.fetchByte
  (fh.1 <<< 8 ||| fl.1, fh.2)

/-- `opUnknown`: unimplemented opcodes do nothing. -/
def opUnknown (cpu : CPU) : CPU := cpu

/-- 0x00 NOP. -/
def opNOP (cpu : CPU) : CPU := cpu

/-- 0x3E LD A, n: load the immediate byte into A. -/
def opLD_A_n (cpu : CPU) : CPU :=
  let f := cpu.fetchByte
  { f.2 with regs := { f.2.regs with A := f.1 } }

/-- 0x06 LD B, n: load the immediate byte into B. -/
def opLD_B_n (cpu : CPU) : CPU :=
  let f := cpu.fetchByte
  { f.2 with regs := { f.2.regs with B := f.1 } }

/-- 0x0E LD C, n: load the immediate byte into C. -/
def opLD_C_n (cpu : CPU) : CPU :=
  let f := cpu.fetchByte
  { f.2 with regs := { f.2.regs with C := f.1 } }

/-- 0x78 LD A, B. -/
def opLD_A_B (cpu : CPU) : CPU :=
  { cpu with regs := { cpu.regs with A := cpu.regs.B } }

/-- 0x79 LD A, C. -/
def opLD_A_C (cpu : CPU) : CPU :=
  { cpu with regs := { cpu.regs with A := cpu.regs.C } }

/-- 0x80 ADD A, B: 8-bit sum into A, flags Z/N/H/C from the operands
(opcodes.go, `opADD_A_B`). `result := a + b` is Go uint8 addition,
hence the `% 256`. -/
def opADD_A_B (cpu : CPU) : CPU :=
  let a := cpu.regs.A
  let b := cpu.regs.B
  let result := (a + b) % 256
  let r1 := cpu.regs.SetFlagZ (result == 0)
  let r2 := r1.SetFlagN false
  let r3 := r2.SetFlagH (decide ((a &&& 0x0F) + (b &&& 0x0F) > 0x0F))
  let r4 := r3.SetFlagC (decide (a + b > 0xFF))
  { cpu with regs := { r4 with A := result } }

/-- 0xC3 JP nn: fetch a little-endian word and jump to it. -/
def opJP_nn (cpu : CPU) : CPU :=
  let f := cpu.fetchWord
  { f.2 with regs := { f.2.regs with PC := f.1 } }

/-- Instruction lengths from `initOpcodes`; every unassigned opcode keeps
the 1-byte default. -/
def opcodeBytes (op : Nat) : Nat :=
  if op = 0x00 then 1
  else if op = 0x3E then 2
  else if op = 0x06 then 2
  else if op = 0x0E then 2
  else if op = 0x78 then 1
  else if op = 0x79 then 1
  else if op = 0x80 then 1
  else if op = 0xC3 then 3
  else 1

/-- Cycle costs from `initOpcodes`; every unassigned opcode keeps the
4-cycle default. -/
def opcodeCycles (op : Nat) : Nat :=
  if op = 0x00 then 4
  else if op = 0x3E then 8
  else if op = 0x06 then 8
  else if op = 0x0E then 8
  else if op = 0x78 then 4
  else if op = 0x79 then 4
  else if op = 0x80 then 4
  else if op = 0xC3 then 16
  else 4

/-- Handler dispatch from `initOpcodes`; every unassigned opcode gets
`opUnknown`. -/
def opcodeExecute (op : Nat) (cpu : CPU) : CPU :=
  if op = 0x00 then opNOP cpu
  else if op = 0x3E then opLD_A_n cpu
  else if op = 0x06 then opLD_B_n cpu
  else if op = 0x0E then opLD_C_n cpu
  else if op = 0x78 then opLD_A_B cpu
  else if op = 0x79 then opLD_A_C cpu
  else if op = 0x80 then opADD_A_B cpu
  else if op = 0xC3 then opJP_nn cpu
  else opUnknown cpu

/-- `Step()`: if halted, report 4 cycles and do nothing; otherwise fetch
the opcode, execute its handler, add the cycle cost to `TotalCycles`
(a uint64, hence the `% 2^64`) and return the cycle cost. -/
def CPU.Step (cpu : CPU) : Nat × CPU :=
  if cpu.Halted then (4, cpu)
  else
    let f := cpu.fetchByte
    let cpu2 := opcodeExecute f.1 f.2
    let cycles := opcodeCycles f.1
    (cycles, { cpu2 with TotalCycles := (cpu2.TotalCycles + cycles) % 18446744073709551616 })

/-! ### Theorems -/

/-- C9: a halted CPU's `Step()` returns 4 and leaves the whole CPU state
(registers, flags, memory, `TotalCycles`) untouched. -/
theorem halted_step_noop (cpu : CPU) (h : cpu.Halted = true) :
    cpu.Step = (4, cpu) := by
  simp [CPU.Step, h]

theorem halted_step_noop_witness :
    CPU.Step { NewCPU NewBasicMemory with Halted := true }
      = (4, { NewCPU NewBasicMemory with Halted := true }) :=
  halted_step_noop { NewCPU NewBasicMemory with Halted := true } rfl

/-- C6: reads of the unmapped ranges `0x8000..0xBFFF`, `0xFE00..0xFF7F`
and `0xFFFF` yield `0xFF`, and writes there leave the memory, hence
every subsequent read at every address, unchanged. -/
theorem unmapped_read_ff_write_noop (m : BasicMemory) (addr : Nat)
    (h : (0x8000 ≤ addr ∧ addr ≤ 0xBFFF) ∨ (0xFE00 ≤ addr ∧ addr ≤ 0xFF7F) ∨ addr = 0xFFFF) :
    m.Read addr = 0xFF ∧ (∀ x, m.Write addr x = m) ∧
    (∀ x a2, (m.Write addr x).Read a2 = m.Read a2) := by
  have h1 : ¬ (addr ≤ 0x7FFF) := by omega
  have h2 : ¬ (0xC000 ≤ addr ∧ addr ≤ 0xDFFF) := by omega
  have h3 : ¬ (0xE000 ≤ addr ∧ addr ≤ 0xFDFF) := by omega
  have h4 : ¬ (0xFF80 ≤ addr ∧ addr ≤ 0xFFFE) := by omega
  have hw : ∀ x, m.Write addr x = m := by
    intro x
    simp [BasicMemory.Write, h1, h2, h3, h4]
  refine ⟨by simp [BasicMemory.Read, h1, h2, h3, h4], hw, ?_⟩
  intro x a2
  rw [hw x]

theorem unmapped_read_ff_write_noop_witness :
    NewBasicMemory.Read 0x8000 = 0xFF ∧
    (NewBasicMemory.Write 0x8000 0x12).Read 0xC000 = NewBasicMemory.Read 0xC000 :=
  ⟨(unmapped_read_ff_write_noop NewBasicMemory 0x8000 (Or.inl (by decide))).1,
   (unmapped_read_ff_write_noop NewBasicMemory 0x8000 (Or.inl (by decide))).2.2 0x12 0xC000⟩

/-- C3: for every offset `k` below the 0x1E00-byte mirror window, a write
at `0xC000+k` is visible at `0xE000+k` and a write at `0xE000+k` is
visible at `0xC000+k`: both decode to WRAM index `k`. -/
theorem wram_echo_mirror (m : BasicMemory) (k x : Nat) (hk : k < 0x1E00) :
    (m.Write (0xC000 + k) x).Read (0xE000 + k) = x ∧
    (m.Write (0xE000 + k) x).Read (0xC000 + k) = x := by
  have hb1 : ¬ (0xC000 + k ≤ 0x7FFF) := by omega
  have hb2 : 0xC000 ≤ 0xC000 + k ∧ 0xC000 + k ≤ 0xDFFF := by omega
  have he1 : ¬ (0xE000 + k ≤ 0x7FFF) := by omega
  have he2 : ¬ (0xC000 ≤ 0xE000 + k ∧ 0xE000 + k ≤ 0xDFFF) := by omega
  have he3 : 0xE000 ≤ 0xE000 + k ∧ 0xE000 + k ≤ 0xFDFF := by omega
  constructor
  · simp [BasicMemory.Write, BasicMemory.Read, hb1, hb2, he1, he2, he3]
  · simp [BasicMemory.Write, BasicMemory.Read, hb1, hb2, he1, he2, he3]

theorem wram_echo_mirror_witness :
    (NewBasicMemory.Write (0xC000 + 0x10) 0x12).Read (0xE000 + 0x10) = 0x12 ∧
    (NewBasicMemory.Write (0xE000 + 0x10) 0x12).Read (0xC000 + 0x10) = 0x12 :=
  wram_echo_mirror NewBasicMemory 0x10 0x12 (by decide)

/-- C7: `LoadROM` fails exactly when the input exceeds 32768 bytes; a
successful load copies the input into ROM from index 0; and after a
failure any valid load still succeeds (the failing call changed
nothing). -/
theorem loadrom_error_iff (m : BasicMemory) (data : List Nat) :
    ((∃ e, m.LoadROM data = Except.error e) ↔ data.length > 32768) ∧
    (∀ m2, m.LoadROM data = Except.ok m2 →
      ∀ i, i < data.length → m2.rom i = data.getD i 0) ∧
    (∀ d2 : List Nat, d2.length ≤ 32768 → ∃ m2, m.LoadROM d2 = Except.ok m2) := by
  refine ⟨⟨?_, ?_⟩, ?_, ?_⟩
  · rintro ⟨e, he⟩
    by_contra hlen
    unfold BasicMemory.LoadROM at he
    rw [if_neg (by omega)] at he
    cases he
  · intro hlen
    exact ⟨"ROM data too large: " ++ toString data.length ++ " bytes (max 32768)",
      by unfold BasicMemory.LoadROM; rw [if_pos (by omega)]⟩
  · intro m2 hm2 i hi
    unfold BasicMemory.LoadROM at hm2
    split at hm2
    · cases hm2
    · cases hm2
      simp [hi]
  · intro d2 h2
    exact ⟨{ m with rom := fun i => if i < d2.length then d2.getD i 0 else m.rom i },
      by unfold BasicMemory.LoadROM; rw [if_neg (by omega)]⟩

theorem loadrom_error_iff_witness :
    ∃ m2, NewBasicMemory.LoadROM [1, 2, 3] = Except.ok m2 :=
  (loadrom_error_iff NewBasicMemory []).2.2 [1, 2, 3] (by decide)

/-- C10: a successful `LoadROM` writes exactly the input bytes at ROM
indices below the input length and leaves every other ROM byte and
all of WRAM and HRAM as they were. -/
theorem loadrom_success_frame (m : BasicMemory) (data : List Nat)
    (hlen : data.length ≤ 32768) :
    ∃ m2, m.LoadROM data = Except.ok m2 ∧
      (∀ i, i < data.length → m2.rom i = data.getD i 0) ∧
      (∀ i, data.length ≤ i → m2.rom i = m.rom i) ∧
      m2.wram = m.wram ∧ m2.hram = m.hram := by
  refine ⟨{ m with rom := fun i => if i < data.length then data.getD i 0 else m.rom i },
    ?_, ?_, ?_, rfl, rfl⟩
  · unfold BasicMemory.LoadROM
    rw [if_neg (by omega)]
  · intro i hi
    simp [hi]
  · intro i hi
    simp [Nat.not_lt.2 hi]

theorem loadrom_success_frame_witness :
    ∃ m2, NewBasicMemory.LoadROM [] = Except.ok m2 ∧
      (∀ i, i < ([] : List Nat).length → m2.rom i = ([] : List Nat).getD i 0) ∧
      (∀ i, ([] : List Nat).length ≤ i → m2.rom i = NewBasicMemory.rom i) ∧
      m2.wram = NewBasicMemory.wram ∧ m2.hram = NewBasicMemory.hram :=
  loadrom_success_frame NewBasicMemory [] (by decide)

/-- Helper: oring a byte into the low 8 bits of a shifted value is
ordinary addition. -/
theorem or_low_eq_add (a b : Nat) (hb : b < 256) : a * 256 ||| b = a * 256 + b := by
  have h : b < 2 ^ 8 := hb
  have h2 := Nat.mul_add_lt_is_or h a
  norm_num at h2
  rw [Nat.mul_comm a 256, ← h2]

/-- Helper: the truncated high byte of a 16-bit value is its quotient by 256. -/
theorem hi_byte (v : Nat) (hv : v < 65536) : (v >>> 8) % 256 = v / 256 := by
  rw [Nat.shiftRight_eq_div_pow]
  norm_num
  omega

/-- Helper: splitting a 16-bit value into bytes and recombining with
shift-or restores it. -/
theorem hilo_recombine (v : Nat) (hv : v < 65536) :
    ((v >>> 8) % 256) <<< 8 ||| (v % 256) = v := by
  rw [hi_byte v hv, Nat.shiftLeft_eq]
  norm_num
  rw [or_low_eq_add _ _ (Nat.mod_lt v (by norm_num))]
  omega

set_option maxRecDepth 4000 in
theorem small_and_fff0 : ∀ b < 256, b &&& 0xFFF0 = b &&& 0xF0 := by decide

set_option maxRecDepth 4000 in
theorem mul256_and_fff0 : ∀ a < 256, a * 256 &&& 0xFFF0 = a * 256 := by decide

/-- Helper: masking a 16-bit value with 0xFFF0 keeps the high byte and
the high nibble of the low byte. -/
theorem and_fff0_eq (v : Nat) (hv : v < 65536) :
    v &&& 0xFFF0 = (v / 256) * 256 + (v % 256 &&& 0xF0) := by
  have hlo : v % 256 < 256 := Nat.mod_lt _ (by norm_num)
  have hhi : v / 256 < 256 := by omega
  have hv2 : v = (v / 256) * 256 ||| v % 256 := by
    rw [or_low_eq_add _ _ hlo]
    omega
  conv_lhs => rw [hv2]
  rw [Nat.and_distrib_right, small_and_fff0 _ hlo, mul256_and_fff0 _ hhi]
  exact or_low_eq_add _ _ (lt_of_le_of_lt Nat.and_le_right (by norm_num))

/-- C5: for every 16-bit value, set-then-get round-trips exactly for BC,
DE and HL, while AF reads back the value with the low nibble of F
forced to zero. -/
theorem register_pair_roundtrip (r : Registers) (v : Nat) (hv : v < 65536) :
    (r.SetBC v).BC = v ∧ (r.SetDE v).DE = v ∧ (r.SetHL v).HL = v ∧
    (r.SetAF v).AF = v &&& 0xFFF0 := by
  refine ⟨?_, ?_, ?_, ?_⟩
  · simpa [Registers.SetBC, Registers.BC] using hilo_recombine v hv
  · simpa [Registers.SetDE, Registers.DE] using hilo_recombine v hv
  · simpa [Registers.SetHL, Registers.HL] using hilo_recombine v hv
  · simp only [Registers.SetAF, Registers.AF]
    rw [hi_byte v hv, Nat.shiftLeft_eq]
    norm_num
    rw [or_low_eq_add _ _ (lt_of_le_of_lt Nat.and_le_right (by norm_num)),
      and_fff0_eq v hv]

theorem register_pair_roundtrip_witness :
    (NewRegisters.SetBC 0x1234).BC = 0x1234 ∧
    (NewRegisters.SetDE 0x1234).DE = 0x1234 ∧
    (NewRegisters.SetHL 0x1234).HL = 0x1234 ∧
    (NewRegisters.SetAF 0x1234).AF = 0x1234 &&& 0xFFF0 :=
  register_pair_roundtrip NewRegisters 0x1234 (by decide)

set_option maxRecDepth 8000 in
theorem flag_chain_dec : ∀ f < 256, ∀ z n h c : Bool,
    (((((Registers.mk 0 f 0 0 0 0 0 0 0 0).SetFlagZ z).SetFlagN n).SetFlagH h).SetFlagC c).GetFlagZ = z ∧
    (((((Registers.mk 0 f 0 0 0 0 0 0 0 0).SetFlagZ z).SetFlagN n).SetFlagH h).SetFlagC c).GetFlagN = n ∧
    (((((Registers.mk 0 f 0 0 0 0 0 0 0 0).SetFlagZ z).SetFlagN n).SetFlagH h).SetFlagC c).GetFlagH = h ∧
    (((((Registers.mk 0 f 0 0 0 0 0 0 0 0).SetFlagZ z).SetFlagN n).SetFlagH h).SetFlagC c).GetFlagC = c ∧
    (((((Registers.mk 0 f 0 0 0 0 0 0 0 0).SetFlagZ z).SetFlagN n).SetFlagH h).SetFlagC c).F < 256 ∧
    (((((Registers.mk 0 f 0 0 0 0 0 0 0 0).SetFlagZ z).SetFlagN n).SetFlagH h).SetFlagC c).F &&& 0x0F = f &&& 0x0F := by
  decide

/-- Helper: the four-flag write chain used by ADD only reads and writes F,
so its F outcome matches the same chain on a register file holding just F. -/
theorem chain_F_only (r : Registers) (z n h c : Bool) :
    ((((r.SetFlagZ z).SetFlagN n).SetFlagH h).SetFlagC c).F
      = (((((Registers.mk 0 r.F 0 0 0 0 0 0 0 0).SetFlagZ z).SetFlagN n).SetFlagH h).SetFlagC c).F := by
  cases z <;> cases n <;> cases h <;> cases c <;> rfl

/-- Helper: the flag chain on any register file yields exactly the four
requested flag values, keeps F a byte, and preserves F's low nibble. -/
theorem chain_spec (r : Registers) (hf : r.F < 256) (z n h c : Bool) :
    ((((r.SetFlagZ z).SetFlagN n).SetFlagH h).SetFlagC c).GetFlagZ = z ∧
    ((((r.SetFlagZ z).SetFlagN n).SetFlagH h).SetFlagC c).GetFlagN = n ∧
    ((((r.SetFlagZ z).SetFlagN n).SetFlagH h).SetFlagC c).GetFlagH = h ∧
    ((((r.SetFlagZ z).SetFlagN n).SetFlagH h).SetFlagC c).GetFlagC = c ∧
    ((((r.SetFlagZ z).SetFlagN n).SetFlagH h).SetFlagC c).F < 256 ∧
    ((((r.SetFlagZ z).SetFlagN n).SetFlagH h).SetFlagC c).F &&& 0x0F = r.F &&& 0x0F := by
  have hc := flag_chain_dec r.F hf z n h c
  have hF := chain_F_only r z n h c
  simp only [Registers.GetFlagZ, Registers.GetFlagN, Registers.GetFlagH,
    Registers.GetFlagC, Registers.GetFlag] at hc ⊢
  rw [hF]
  exact hc

/-- Helper: ADD A,B at the handler level: A gets the 8-bit sum and the
four flags get exactly the Z/N/H/C values of the specification. -/
theorem opADD_flags (cpu : CPU) (hf : cpu.regs.F < 256) :
    (opADD_A_B cpu).regs.A = (cpu.regs.A + cpu.regs.B) % 256 ∧
    (opADD_A_B cpu).regs.GetFlagZ = ((cpu.regs.A + cpu.regs.B) % 256 == 0) ∧
    (opADD_A_B cpu).regs.GetFlagN = false ∧
    (opADD_A_B cpu).regs.GetFlagH
      = decide ((cpu.regs.A &&& 0x0F) + (cpu.regs.B &&& 0x0F) > 0x0F) ∧
    (opADD_A_B cpu).regs.GetFlagC = decide (cpu.regs.A + cpu.regs.B > 0xFF) := by
  have hs := chain_spec cpu.regs hf ((cpu.regs.A + cpu.regs.B) % 256 == 0) false
    (decide ((cpu.regs.A &&& 0x0F) + (cpu.regs.B &&& 0x0F) > 0x0F))
    (decide (cpu.regs.A + cpu.regs.B > 0xFF))
  exact ⟨rfl, hs.1, hs.2.1, hs.2.2.1, hs.2.2.2.1⟩

set_option linter.unusedVariables false in
/-- C1: executing opcode 0x80 (ADD A,B) via `Step()` stores the 8-bit sum
in A and sets Z, N, H, C exactly per the specification, for any prior
flag byte. -/
theorem add_a_b_step (cpu : CPU) (hh : cpu.Halted = false)
    (hop : cpu.mem.Read cpu.regs.PC = 0x80)
    (ha : cpu.regs.A < 256) (hb : cpu.regs.B < 256) (hf : cpu.regs.F < 256) :
    (cpu.Step).2.regs.A = (cpu.regs.A + cpu.regs.B) % 256 ∧
    (cpu.Step).2.regs.GetFlagZ = ((cpu.regs.A + cpu.regs.B) % 256 == 0) ∧
    (cpu.Step).2.regs.GetFlagN = false ∧
    (cpu.Step).2.regs.GetFlagH
      = decide ((cpu.regs.A &&& 0x0F) + (cpu.regs.B &&& 0x0F) > 0x0F) ∧
    (cpu.Step).2.regs.GetFlagC = decide (cpu.regs.A + cpu.regs.B > 0xFF) := by
  have key := opADD_flags
    { cpu with regs := { cpu.regs with PC := (cpu.regs.PC + 1) % 65536 } } hf
  simp only [CPU.Step, hh, Bool.false_eq_true, if_false, CPU.fetchByte, hop,
    opcodeExecute, opcodeCycles] at *
  norm_num at *
  exact key

def addDemoCPU : CPU :=
  { NewCPU (NewBasicMemory.Write 0 0x80) with
    regs := { NewRegisters with A := 200, B := 100 } }

theorem add_a_b_step_witness :
    (addDemoCPU.Step).2.regs.A = 44 ∧
    (addDemoCPU.Step).2.regs.GetFlagZ = false ∧
    (addDemoCPU.Step).2.regs.GetFlagN = false ∧
    (addDemoCPU.Step).2.regs.GetFlagH = false ∧
    (addDemoCPU.Step).2.regs.GetFlagC = true := by
  have h := add_a_b_step addDemoCPU rfl (by decide) (by decide) (by decide) (by decide)
  exact ⟨h.1, h.2.1, h.2.2.1, h.2.2.2.1, h.2.2.2.2⟩

/-- Helper: oring a value whose low nibble is zero with a flag constant
whose low nibble is zero keeps the low nibble zero. -/
theorem or_keeps_low_nibble (x k : Nat) (hx : x &&& 0x0F = 0) (hk : k &&& 0x0F = 0) :
    (x ||| k) &&& 0x0F = 0 := by
  rw [Nat.and_distrib_right, hx, hk]
  simp

/-- Helper: masking with a constant whose low nibble is full keeps the
low nibble of a low-nibble-zero value zero. -/
theorem and_keeps_low_nibble (x k : Nat) (hx : x &&& 0x0F = 0) (hk : k &&& 0x0F = 0x0F) :
    (x &&& k) &&& 0x0F = 0 := by
  rw [Nat.and_assoc, hk, hx]

/-- Helper: every opcode handler keeps the low nibble of F zero. -/
theorem opcodeExecute_F_low (op : Nat) (cpu : CPU) (hf : cpu.regs.F < 256)
    (h0 : cpu.regs.F &&& 0x0F = 0) :
    (opcodeExecute op cpu).regs.F &&& 0x0F = 0 := by
  unfold opcodeExecute
  split_ifs with h1 h2 h3 h4 h5 h6 h7 h8
  · exact h0
  · exact h0
  · exact h0
  · exact h0
  · exact h0
  · exact h0
  · exact ((chain_spec cpu.regs hf (((cpu.regs.A + cpu.regs.B) % 256) == 0) false
      (decide ((cpu.regs.A &&& 0x0F) + (cpu.regs.B &&& 0x0F) > 0x0F))
      (decide (cpu.regs.A + cpu.regs.B > 0xFF))).2.2.2.2.2).trans h0
  · exact h0
  · exact h0

/-- C4: the low nibble of F is zero initially and stays zero under every
F-writing operation: `SetAF`, `SetFlag` on any of the four flag bits,
`SetFlags`, and every opcode handler via `Step()`. -/
theorem f_low_nibble_invariant :
    NewRegisters.F &&& 0x0F = 0 ∧
    (∀ (r : Registers) (v : Nat), (r.SetAF v).F &&& 0x0F = 0) ∧
    (∀ (r : Registers) (flag : Nat) (v : Bool),
      (flag = FlagZ ∨ flag = FlagN ∨ flag = FlagH ∨ flag = FlagC) →
      r.F &&& 0x0F = 0 → (r.SetFlag flag v).F &&& 0x0F = 0) ∧
    (∀ (r : Registers) (z n h c : Bool), (r.SetFlags z n h c).F &&& 0x0F = 0) ∧
    (∀ cpu : CPU, cpu.regs.F < 256 → cpu.regs.F &&& 0x0F = 0 →
      (cpu.Step).2.regs.F &&& 0x0F = 0) := by
  refine ⟨by decide, ?_, ?_, ?_, ?_⟩
  · intro r v
    show ((v % 256) &&& 0xF0) &&& 0x0F = 0
    have hc : (0xF0 &&& 0x0F : Nat) = 0 := by decide
    rw [Nat.and_assoc, hc, Nat.and_zero]
  · intro r flag v hflag h0
    rcases hflag with h1 | h1 | h1 | h1 <;> subst h1 <;> cases v <;>
      first
      | exact and_keeps_low_nibble r.F _ h0 (by decide)
      | exact or_keeps_low_nibble r.F _ h0 (by decide)
  · intro r z n h c
    cases z <;> cases n <;> cases h <;> cases c <;>
      simp only [Registers.SetFlags, FlagZ, FlagN, FlagH, FlagC] <;> decide
  · intro cpu hf h0
    cases hb2 : cpu.Halted with
    | true => simpa [CPU.Step, hb2] using h0
    | false =>
      have hkey := opcodeExecute_F_low (cpu.fetchByte).1 (cpu.fetchByte).2 hf h0
      simp only [CPU.Step, hb2, Bool.false_eq_true, if_false]
      exact hkey

theorem f_low_nibble_invariant_witness :
    (NewRegisters.SetFlag FlagZ true).F &&& 0x0F = 0 ∧
    ((NewCPU NewBasicMemory).Step).2.regs.F &&& 0x0F = 0 :=
  ⟨f_low_nibble_invariant.2.2.1 NewRegisters FlagZ true (Or.inl rfl) (by decide),
   f_low_nibble_invariant.2.2.2.2 (NewCPU NewBasicMemory) (by decide) (by decide)⟩

/-- C2: fetching any opcode byte outside the implemented set advances PC
by exactly one (16-bit wrap), costs 4 cycles, and leaves every register,
every flag and the whole memory untouched. -/
theorem unknown_opcode_step (cpu : CPU) (op : Nat) (hh : cpu.Halted = false)
    (hop : cpu.mem.Read cpu.regs.PC = op)
    (h1 : op ≠ 0x00) (h2 : op ≠ 0x3E) (h3 : op ≠ 0x06) (h4 : op ≠ 0x0E)
    (h5 : op ≠ 0x78) (h6 : op ≠ 0x79) (h7 : op ≠ 0x80) (h8 : op ≠ 0xC3) :
    (cpu.Step).1 = 4 ∧
    (cpu.Step).2.regs.PC = (cpu.regs.PC + 1) % 65536 ∧
    (cpu.Step).2.regs.A = cpu.regs.A ∧
    (cpu.Step).2.regs.F = cpu.regs.F ∧
    (cpu.Step).2.regs.B = cpu.regs.B ∧
    (cpu.Step).2.regs.C = cpu.regs.C ∧
    (cpu.Step).2.regs.D = cpu.regs.D ∧
    (cpu.Step).2.regs.E = cpu.regs.E ∧
    (cpu.Step).2.regs.H = cpu.regs.H ∧
    (cpu.Step).2.regs.L = cpu.regs.L ∧
    (cpu.Step).2.regs.SP = cpu.regs.SP ∧
    (∀ flag, (cpu.Step).2.regs.GetFlag flag = cpu.regs.GetFlag flag) ∧
    (cpu.Step).2.mem = cpu.mem := by
  simp [CPU.Step, hh, CPU.fetchByte, hop, opcodeExecute, opcodeCycles, opUnknown,
    Registers.GetFlag, h1, h2, h3, h4, h5, h6, h7, h8]

theorem unknown_opcode_step_witness :
    (((NewCPU (NewBasicMemory.Write 0 0xD3)).Step).1 = 4) ∧
    ((NewCPU (NewBasicMemory.Write 0 0xD3)).Step).2.regs.PC = 1 := by
  have h := unknown_opcode_step (NewCPU (NewBasicMemory.Write 0 0xD3)) 0xD3 rfl
    (by decide) (by decide) (by decide) (by decide) (by decide)
    (by decide) (by decide) (by decide) (by decide)
  exact ⟨h.1, h.2.1⟩

/-- C8: opcode 0xC3 (JP nn) reads the two following bytes little-endian,
sets PC to exactly that 16-bit value, returns 16 cycles, and leaves
flags, the other registers and memory untouched. -/
theorem jp_nn_step (cpu : CPU) (hh : cpu.Halted = false)
    (hop : cpu.mem.Read cpu.regs.PC = 0xC3) :
    (cpu.Step).1 = 16 ∧
    (cpu.Step).2.regs.PC
      = cpu.mem.Read ((cpu.regs.PC + 2) % 65536) <<< 8
          ||| cpu.mem.Read ((cpu.regs.PC + 1) % 65536) ∧
    (cpu.Step).2.regs.A = cpu.regs.A ∧
    (cpu.Step).2.regs.F = cpu.regs.F ∧
    (cpu.Step).2.regs.B = cpu.regs.B ∧
    (cpu.Step).2.regs.C = cpu.regs.C ∧
    (cpu.Step).2.regs.D = cpu.regs.D ∧
    (cpu.Step).2.regs.E = cpu.regs.E ∧
    (cpu.Step).2.regs.H = cpu.regs.H ∧
    (cpu.Step).2.regs.L = cpu.regs.L ∧
    (cpu.Step).2.regs.SP = cpu.regs.SP ∧
    (∀ flag, (cpu.Step).2.regs.GetFlag flag = cpu.regs.GetFlag flag) ∧
    (cpu.Step).2.mem = cpu.mem := by
  have hpc : ((cpu.regs.PC + 1) % 65536 + 1) % 65536 = (cpu.regs.PC + 2) % 65536 := by
    omega
  simp [CPU.Step, hh, CPU.fetchByte, hop, opcodeExecute, opcodeCycles,
    opJP_nn, CPU.fetchWord, Registers.GetFlag, hpc]

def jpDemoMem : BasicMemory :=
  (NewBasicMemory.LoadROM [0xC3, 0x50, 0x01]).toOption.getD NewBasicMemory

theorem jp_nn_step_witness :
    ((NewCPU jpDemoMem).Step).1 = 16 ∧
    ((NewCPU jpDemoMem).Step).2.regs.PC = 0x0150 := by
  have h := jp_nn_step (NewCPU jpDemoMem) rfl (by decide)
  refine ⟨h.1, ?_⟩
  rw [h.2.1]
  decide
